import Mathlib

/-
Shallow embedding of the email-scraping scripts of this repository
(src/aslocation.py, src/loc.py, src/keyword001.py) together with proofs
about the embedded definitions.

Modelling conventions:
* Python dicts keyed by strings become association lists (`Checkpoint`),
  with `cpFind` / `cpSet` / `cpMem` mirroring lookup, assignment and the
  `in` test (assignment updates in place or appends at the end, as a
  Python dict does).
* Python sets of strings are represented by lists; `dedupFirst` models
  building a set from a list (first occurrence kept), `sortStrings`
  models `sorted(...)` on the resulting list.
* The selenium driver is replaced by an oracle (a function from work
  item and attempt number to an outcome) and the orchestrator loops are
  turned into functions that also emit a trace of observable events
  (`Ev`): page fetches, retry backoffs, result recording, checkpoint
  saves, CSV exports, driver re-creation, and the per-link actions of
  the link-following variant.  Log lines and anti-bot pacing sleeps are
  not events; the backoff between retry attempts is, because the spec
  talks about it.
* The regex extraction is embedded as an explicit backtracking matcher
  for the exact patterns appearing in the sources, including Python's
  `re.findall` convention that a pattern containing one capture group
  yields the text of that group (the empty string when the group did
  not participate in the match).
-/

/-! ## Checkpoint mapping (Python dict keyed by strings) -/

abbrev Checkpoint := List (String × List String)

def cpFind : Checkpoint → String → Option (List String)
  | [], _ => none
  | (k', v) :: rest, k => if k' = k then some v else cpFind rest k

def cpSet : Checkpoint → String → List String → Checkpoint
  | [], k, v => [(k, v)]
  | (k', v') :: rest, k, v =>
      if k' = k then (k, v) :: rest else (k', v') :: cpSet rest k v

def cpMem (cp : Checkpoint) (k : String) : Bool :=
  (cpFind cp k).isSome

/-! ## Set-as-list helpers -/

def dedupAux (seen : List String) : List String → List String
  | [] => []
  | x :: xs => if x ∈ seen then dedupAux seen xs else x :: dedupAux (x :: seen) xs

def dedupFirst (l : List String) : List String := dedupAux [] l

def chLeB (a b : Char) : Bool := Nat.ble a.toNat b.toNat

def lexLe : List Char → List Char → Bool
  | [], _ => true
  | _ :: _, [] => false
  | a :: as, b :: bs => if a = b then lexLe as bs else Nat.blt a.toNat b.toNat

def strLe (s t : String) : Bool := lexLe s.data t.data

def insSorted (s : String) : List String → List String
  | [] => [s]
  | t :: ts => if strLe s t then s :: t :: ts else t :: insSorted s ts

def sortStrings (l : List String) : List String := l.foldr insSorted []

/- Python set union `acc.update(b)`: membership-wise union, keeping `acc`
   and adding the members of `b` not already present. -/
def unionPy (a b : List String) : List String :=
  a ++ b.filter (fun x => decide (x ∉ a))

/- Python str.strip(): remove leading and trailing whitespace. -/
def pyStrip (s : String) : String :=
  String.mk
    (((s.data.dropWhile Char.isWhitespace).reverse.dropWhile
        Char.isWhitespace).reverse)

/-! ## Observable events of the orchestrator models -/

inductive Ev where
  | fetch (key : String)
  | backoff
  | record (key : String) (emails : List String)
  | save (cp : Checkpoint)
  | exportCsv
  | reinit (ok : Bool)
  | linkOpen (url : String)
  | linkDone (url : String)
  | linkFail (url : String)
  | switchBack
deriving DecidableEq

/- Number of times the page fetch for `key` occurs in a trace. -/
def countFetch (evs : List Ev) (key : String) : Nat :=
  evs.count (Ev.fetch key)

/- Write-through discipline checker: every `record k v` event must be
   immediately followed by a `save cp` event whose checkpoint maps `k`
   to `v`.  The `Option` state carries a pending record waiting for its
   save. -/
def wtAux : Option (String × List String) → List Ev → Bool
  | none, [] => true
  | none, Ev.record k v :: rest => wtAux (some (k, v)) rest
  | none, _ :: rest => wtAux none rest
  | some _, [] => false
  | some (k, v), Ev.save cp :: rest =>
      if cpFind cp k = some v then wtAux none rest else false
  | some _, _ :: _ => false

def writeThrough (evs : List Ev) : Bool := wtAux none evs

/-! ## Checkpoint store: load_checkpoint (identical in all three scripts)

`load_checkpoint` reads the file when it exists, strips the content,
returns `{}` logging at info level when the stripped content is empty,
returns the parsed JSON otherwise, and returns `{}` logging at error
level when parsing (or anything else) fails.  A missing file yields `{}`
with no log line at all.  The JSON parser is abstracted as a function
`parseJson`; the file-system read is abstracted as `Option String`
(`none` = file does not exist). -/

inductive LogMsg where
  | info
  | error
deriving DecidableEq

def load_checkpoint (parseJson : String → Option Checkpoint) :
    Option String → Checkpoint × List LogMsg
  | none => ([], [])
  | some raw =>
      let content := pyStrip raw
      if content = "" then ([], [LogMsg.info])
      else
        match parseJson content with
        | some m => (m, [])
        | none => ([], [LogMsg.error])

/-! ## Checkpoint store: save_checkpoint (identical in all three scripts)

`save_checkpoint` executes `open(checkpoint_file, "w")` followed by
`json.dump`: the target file itself is truncated at open time and the
new JSON is written directly into it.  The step vocabulary also has the
temp-file operations a rename-based implementation would use, so that
their absence from the actual step list is expressible. -/

inductive FsStep where
  | openTrunc   -- open(checkpoint_file, "w"): truncates the target
  | writeAll    -- json.dump(email_results, f, indent=4)
  | closeFile   -- leaving the with-block
  | writeTemp   -- writing a temporary file (not performed by the source)
  | renameTemp  -- renaming a temporary file over the target (not performed)
deriving DecidableEq

def save_checkpoint_steps : List FsStep :=
  [FsStep.openTrunc, FsStep.writeAll, FsStep.closeFile]

def stepDisk (data : String) (d : Option String) : FsStep → Option String
  | FsStep.openTrunc => some ""
  | FsStep.writeAll => some data
  | FsStep.closeFile => d
  | FsStep.writeTemp => d
  | FsStep.renameTemp => some data

/- Content of the checkpoint file after the first `k` steps of
   `save_checkpoint data` run against a disk whose file held `d`. -/
def diskAfter (data : String) (d : Option String) (k : Nat) : Option String :=
  (save_checkpoint_steps.take k).foldl (stepDisk data) d

/-! ## The e-mail regular expression

Both cited extraction sites use (up to the image-extension list) the
pattern

  `[a-zA-Z0-9._%+-]+@[a-zA-Z0-9.-]+\.[a-zA-Z]{2,}(?!\.(png|jpg|...))`

with `re.IGNORECASE`, executed through `re.findall`.  The matcher below
embeds exactly this pattern with Python's leftmost scanning and greedy
backtracking semantics:

* the local part `[a-zA-Z0-9._%+-]+` can only be its maximal run, since
  `@` is not in its character class;
* the domain run `[a-zA-Z0-9.-]+` backtracks from its maximal length
  down to 1 looking for a position where the literal `\.` matches;
* the tld `[a-zA-Z]{2,}` backtracks from its maximal run down to 2
  until the trailing negative lookahead `(?!\.(ext|...))` succeeds;
* `re.findall` scans non-overlapping matches left to right, advancing
  one character after a failed position and to the match end after a
  successful one;
* a pattern with exactly one capture group makes `re.findall` return
  the text of that group per match, and a group that did not
  participate (here: the group sits inside a negative lookahead, which
  must fail to match for the overall match to succeed) is rendered as
  the empty string. -/

namespace Regex

def isLocalChar (c : Char) : Bool :=
  c.isAlpha || c.isDigit || c = '.' || c = '_' || c = '%' || c = '+' || c = '-'

def isDomChar (c : Char) : Bool :=
  c.isAlpha || c.isDigit || c = '.' || c = '-'

/- Maximal run of characters satisfying `p`: its length and the rest. -/
def takeRun (p : Char → Bool) : List Char → Nat × List Char
  | [] => (0, [])
  | c :: cs =>
      if p c then
        let r := takeRun p cs
        (r.1 + 1, r.2)
      else (0, c :: cs)

/- Case-insensitive: does `w` start with the letters `e`? -/
def startsWithCI : List Char → List Char → Bool
  | [], _ => true
  | _ :: _, [] => false
  | a :: es, b :: ws => (b.toLower == a.toLower) && startsWithCI es ws

/- Interior of the lookahead `\.(ext1|ext2|...)` at the text `w`: the
   first alternative that matches, if any (its text would be the capture
   of group 1). -/
def lookaheadExt (exts : List String) (w : List Char) : Option String :=
  match w with
  | '.' :: w' => exts.find? (fun e => startsWithCI e.data w')
  | _ => none

/- Greedy `[a-zA-Z]{2,}` followed by the negative lookahead, trying
   `m` letters first and backtracking down to 2.  `u` is the text just
   after the matched `\.`; the first `m` characters of `u` are known to
   be letters (the caller passes the maximal alphabetic run length).
   Returns the rest of the text after the match on success. -/
def tryTldDesc (exts : List String) (u : List Char) : Nat → Option (List Char)
  | 0 => none
  | 1 => none
  | m + 2 =>
      let rest := u.drop (m + 2)
      if (lookaheadExt exts rest).isNone then some rest
      else tryTldDesc exts u (m + 1)

/- Greedy `[a-zA-Z0-9.-]+\.` with backtracking: try consuming `j`
   domain characters (longest first) such that the next character is
   the literal dot, then hand over to the tld matcher.  `t` is the text
   just after the `@`; the initial `j` is the maximal domain-run
   length. -/
def tryDomDesc (exts : List String) (t : List Char) : Nat → Option (List Char)
  | 0 => none
  | j + 1 =>
      match t[j + 1]? with
      | some '.' =>
          let u := t.drop (j + 2)
          let r := takeRun Char.isAlpha u
          match tryTldDesc exts u r.1 with
          | some rest => some rest
          | none => tryDomDesc exts t j
      | _ => tryDomDesc exts t j

/- One anchored match attempt at the head of `s`; returns the rest of
   the text after the full match on success. -/
def matchAttempt (exts : List String) (s : List Char) : Option (List Char) :=
  let rl := takeRun isLocalChar s
  if rl.1 == 0 then none
  else
    match rl.2 with
    | '@' :: t =>
        let rb := takeRun isDomChar t
        tryDomDesc exts t rb.1
    | _ => none

/- Non-overlapping scan of the whole text.  Each returned pair is
   (group 0, group 1) of one match: the full matched text and the text
   of the capture group, which is always the empty string because the
   group lives inside the negative lookahead.  The fuel is the length
   of the text; every match consumes at least one character. -/
def findallPairs (exts : List String) : Nat → List Char → List (String × String)
  | 0, _ => []
  | _, [] => []
  | fuel + 1, c :: cs =>
      match matchAttempt exts (c :: cs) with
      | some rest =>
          (String.mk ((c :: cs).take ((c :: cs).length - rest.length)), "") ::
            findallPairs exts fuel rest
      | none => findallPairs exts fuel cs

/- What the Python call `re.findall(pattern, text, re.IGNORECASE)`
   returns for these patterns: one capture group in the pattern, so a
   list of group-1 texts. -/
def findallPy (exts : List String) (fuel : Nat) (s : List Char) : List String :=
  (findallPairs exts fuel s).map Prod.snd

/- The full matches (group 0), for comparison with the addresses the
   pattern actually finds in the text. -/
def findallMatches (exts : List String) (fuel : Nat) (s : List Char) : List String :=
  (findallPairs exts fuel s).map Prod.fst

end Regex

/- Image-extension alternatives of the lookahead, per script. -/
def imageExtsLoc : List String := ["png", "jpg", "jpeg", "gif", "bmp", "svg", "webp"]

def imageExtsAs : List String := ["png", "jpg", "jpeg", "gif", "bmp"]

/- The scenario text of the specification. -/
def scenarioText : String :=
  "contact us at jane@firm.com or see logo@cdn.com/logo.png"

namespace Loc

/- Python: `len(email) > 5 and '@' in email and '.' in email.split('@')[1]`. -/
def validEmail (e : String) : Bool :=
  decide (5 < e.length) && e.data.contains '@' &&
    (((e.splitOn "@").getD 1 "").data.contains '.')

/- loc.py extract_emails: `set(re.findall(email_pattern, text, re.IGNORECASE))`
   followed by the validity filter.  The set is modelled as a
   first-occurrence deduplicated list. -/
def extract_emails (text : String) : List String :=
  let emails := dedupFirst (Regex.findallPy imageExtsLoc text.data.length text.data)
  emails.filter validEmail

end Loc

namespace AsLocation

/- aslocation.py, success path of one search:
   `sorted(list(set(re.findall(regex, page_html, re.IGNORECASE))))`. -/
def page_emails (html : String) : List String :=
  sortStrings (dedupFirst (Regex.findallPy imageExtsAs html.data.length html.data))

def MAX_RETRIES : Nat := 3

/- Outcome of one `driver.get` + readiness wait, as classified by the
   two except clauses of the attempt loop: the page rendered (with its
   html), the wait raised TimeoutException, or a WebDriverException was
   raised. -/
inductive Outcome where
  | ok (html : String)
  | timeout
  | driverErr
deriving DecidableEq

/- Oracle for the environment of a run: the outcome of fetching a
   location at a given attempt index, and whether the n-th driver
   re-creation of the run succeeds. -/
structure AsCtx where
  fetch : String → Nat → Outcome
  reinitOk : Nat → Bool

structure AttOut where
  cp : Checkpoint
  evs : List Ev
  term : Bool
  rn : Nat
deriving DecidableEq

structure RunOut where
  cp : Checkpoint
  evs : List Ev
  term : Bool
deriving DecidableEq

/- aslocation.py lines 168-228, `for attempt in range(MAX_RETRIES)`.
   `fuel` is the number of attempts still available (initially
   MAX_RETRIES) and `attempt` the current index, so `fuel + attempt =
   MAX_RETRIES` throughout.  On success: record, save, export, break.
   On TimeoutException: on the last attempt record an empty list, save
   and export; in every case sleep a randomized backoff and continue.
   On WebDriverException: quit and re-create the driver; if re-creation
   fails, save, export and return (terminating the whole run);
   otherwise retry the same location on the next attempt.  Exhausting
   the attempts falls through to the next location with no record. -/
def attemptLoop (ctx : AsCtx) (loc : String) :
    Nat → Nat → Checkpoint → Nat → AttOut
  | 0, _, cp, rn => ⟨cp, [], false, rn⟩
  | fuel + 1, attempt, cp, rn =>
      match ctx.fetch loc attempt with
      | Outcome.ok html =>
          let es := page_emails html
          let cp' := cpSet cp loc es
          ⟨cp', [Ev.fetch loc, Ev.record loc es, Ev.save cp', Ev.exportCsv],
            false, rn⟩
      | Outcome.timeout =>
          if attempt == MAX_RETRIES - 1 then
            let cp' := cpSet cp loc []
            let r := attemptLoop ctx loc fuel (attempt + 1) cp' rn
            ⟨r.cp,
              [Ev.fetch loc, Ev.record loc [], Ev.save cp', Ev.exportCsv,
                Ev.backoff] ++ r.evs,
              r.term, r.rn⟩
          else
            let r := attemptLoop ctx loc fuel (attempt + 1) cp rn
            ⟨r.cp, [Ev.fetch loc, Ev.backoff] ++ r.evs, r.term, r.rn⟩
      | Outcome.driverErr =>
          if ctx.reinitOk rn then
            let r := attemptLoop ctx loc fuel (attempt + 1) cp (rn + 1)
            ⟨r.cp, [Ev.fetch loc, Ev.reinit true] ++ r.evs, r.term, r.rn⟩
          else
            ⟨cp, [Ev.fetch loc, Ev.reinit false, Ev.save cp, Ev.exportCsv],
              true, rn + 1⟩

/- aslocation.py scrape_google_emails, the location loop (lines
   158-228): a location already present in the checkpoint is skipped
   before any fetch; otherwise the attempt loop runs, and a terminal
   result (failed driver re-creation) ends the whole run. -/
def scrape_google_emails (ctx : AsCtx) :
    List String → Checkpoint → Nat → RunOut
  | [], cp, _ => ⟨cp, [], false⟩
  | loc :: rest, cp, rn =>
      if cpMem cp loc then scrape_google_emails ctx rest cp rn
      else
        let a := attemptLoop ctx loc MAX_RETRIES 0 cp rn
        if a.term then ⟨a.cp, a.evs, true⟩
        else
          let r := scrape_google_emails ctx rest a.cp a.rn
          ⟨r.cp, a.evs ++ r.evs, r.term⟩

/- aslocation.py load_locations_from_excel, lines 45-52: the values of
   the column (after pandas dropna/astype(str)) are stripped, and the
   comprehension keeps a value when it is non-empty and not seen yet,
   adding it to `seen` as a side effect of the test. -/
def unique_locations (seen : List String) : List String → List String
  | [] => []
  | x :: xs =>
      if x ≠ "" ∧ x ∉ seen then x :: unique_locations (x :: seen) xs
      else unique_locations seen xs

def load_locations_from_excel (cells : List String) : List String :=
  unique_locations [] (cells.map pyStrip)

end AsLocation

namespace Loc

def MAX_LINKS_PER_PAGE : Nat := 5

/- One outbound result link of the link-following variant: its href
   and what happens when it is visited in a fresh window — `some es`
   when the open/wait/extract sequence succeeds yielding the e-mails
   `es`, `none` when any of those steps raises. -/
structure LinkCase where
  url : String
  result : Option (List String)
deriving DecidableEq

/- Outcome of the search-page part of loc.py scrape_emails: the
   readiness wait raised TimeoutException, some other exception was
   raised, or the page rendered with the e-mails extracted from it and
   the enumerated result links. -/
inductive SearchOutcome where
  | timeout
  | err
  | ok (pageEmails : List String) (links : List LinkCase)
deriving DecidableEq

structure LocCtx where
  scrape : String → SearchOutcome

/- loc.py lines 186-211, the per-link loop over `links[:5]`: open the
   link in a new window, wait, extract, merge into the accumulated set,
   close and switch back; on any exception log, close best-effort,
   switch back to the original window and continue with the next
   link. -/
def linkLoop (acc : List String) : List LinkCase → List Ev × List String
  | [] => ([], acc)
  | l :: ls =>
      match l.result with
      | some es =>
          let r := linkLoop (unionPy acc es) ls
          (Ev.linkOpen l.url :: Ev.linkDone l.url :: Ev.switchBack :: r.1, r.2)
      | none =>
          let r := linkLoop acc ls
          (Ev.linkOpen l.url :: Ev.linkFail l.url :: Ev.switchBack :: r.1, r.2)

/- loc.py scrape_emails (lines 153-220) for one work item `key`: fetch
   the search page; a TimeoutException or any other exception anywhere
   in the body is caught by the trailing except clauses and yields the
   empty set; otherwise extract from the search page and then visit at
   most MAX_LINKS_PER_PAGE result links.  The function never lets an
   exception escape. -/
def scrape_emails (o : SearchOutcome) (key : String) : List Ev × List String :=
  match o with
  | SearchOutcome.timeout => ([Ev.fetch key], [])
  | SearchOutcome.err => ([Ev.fetch key], [])
  | SearchOutcome.ok pes links =>
      let r := linkLoop (unionPy [] pes) (links.take MAX_LINKS_PER_PAGE)
      (Ev.fetch key :: r.1, r.2)

/- loc.py main (lines 253-284), with the keyword and city loops
   flattened into the list of string keys `str((keyword, city))` they
   produce.  A key already in the checkpoint is skipped before any
   fetch.  The retry loop `for attempt in range(MAX_RETRIES)` around
   the scrape_emails call always breaks on its first iteration, because
   scrape_emails catches every exception internally (its except clauses
   cover TimeoutException and Exception), so the WebDriverException
   handler of main is unreachable and each key is scraped exactly once.
   The result is sorted, recorded, saved and exported before the loop
   advances. -/
def main_loop (ctx : LocCtx) : List String → Checkpoint → Checkpoint × List Ev
  | [], cp => (cp, [])
  | key :: rest, cp =>
      if cpMem cp key then main_loop ctx rest cp
      else
        let r := scrape_emails (ctx.scrape key) key
        let es := sortStrings (dedupFirst r.2)
        let cp' := cpSet cp key es
        let rec' := main_loop ctx rest cp'
        (rec'.1, r.1 ++ [Ev.record key es, Ev.save cp', Ev.exportCsv] ++ rec'.2)

/- loc.py load_cities_and_keywords, lines 45-54: each column is
   stripped and deduplicated with `list(dict.fromkeys(...))`, which
   keeps the first occurrence in order but does not drop values that
   are empty after stripping. -/
def dict_fromkeys (seen : List String) : List String → List String
  | [] => []
  | x :: xs =>
      if x ∈ seen then dict_fromkeys seen xs
      else x :: dict_fromkeys (x :: seen) xs

def load_cities_column (cells : List String) : List String :=
  dict_fromkeys [] (cells.map pyStrip)

end Loc

namespace Keyword001

/- Outcome of the single try block of keyword001.py for one location:
   the page rendered and the regex extracted `es`, or a
   WebDriverException was raised. -/
inductive KwOutcome where
  | ok (es : List String)
  | driverErr
deriving DecidableEq

structure KwCtx where
  fetch : String → KwOutcome
  reinitOk : Nat → Bool

/- keyword001.py scrape_google_emails, lines 136-184.  Each location is
   fetched at most once per run: on success the sorted set is recorded
   and saved; on WebDriverException the driver is quit and re-created —
   if re-creation fails the current results are saved and the run
   returns, otherwise the handler logs "Retrying {location}" and
   executes `continue`, which belongs to the location loop and
   therefore advances to the NEXT location without retrying or
   recording the current one. -/
def scrape_google_emails (ctx : KwCtx) :
    List String → Checkpoint → Nat → AsLocation.RunOut
  | [], cp, _ => ⟨cp, [], false⟩
  | loc :: rest, cp, rn =>
      if cpMem cp loc then scrape_google_emails ctx rest cp rn
      else
        match ctx.fetch loc with
        | KwOutcome.ok es =>
            let es' := sortStrings (dedupFirst es)
            let cp' := cpSet cp loc es'
            let r := scrape_google_emails ctx rest cp' rn
            ⟨r.cp,
              [Ev.fetch loc, Ev.record loc es', Ev.save cp'] ++ r.evs, r.term⟩
        | KwOutcome.driverErr =>
            if ctx.reinitOk rn then
              let r := scrape_google_emails ctx rest cp (rn + 1)
              ⟨r.cp, [Ev.fetch loc, Ev.reinit true] ++ r.evs, r.term⟩
            else
              ⟨cp, [Ev.fetch loc, Ev.reinit false, Ev.save cp], true⟩

end Keyword001

/-! ## Concrete environments used by witnesses and counterexamples -/

/- Every fetch succeeds with an empty page. -/
def asCtxOkW : AsLocation.AsCtx :=
  ⟨fun _ _ => AsLocation.Outcome.ok "", fun _ => true⟩

/- Every fetch raises TimeoutException. -/
def asCtxTimeoutW : AsLocation.AsCtx :=
  ⟨fun _ _ => AsLocation.Outcome.timeout, fun _ => true⟩

/- Every fetch raises WebDriverException; driver re-creation always
   succeeds. -/
def asCtxDriverW : AsLocation.AsCtx :=
  ⟨fun _ _ => AsLocation.Outcome.driverErr, fun _ => true⟩

/- loc.py environment in which every search times out. -/
def locCtxTimeoutW : Loc.LocCtx := ⟨fun _ => Loc.SearchOutcome.timeout⟩

/- loc.py environment in which every search succeeds with an empty page
   and no result links. -/
def locCtxOkW : Loc.LocCtx := ⟨fun _ => Loc.SearchOutcome.ok [] []⟩

/- A checkpoint that already contains the key "Austin". -/
def cpAustinW : Checkpoint := [("Austin", ["a@b.co"])]

/- keyword001.py environment: location "A" raises WebDriverException,
   every other location succeeds; driver re-creation always succeeds. -/
def kwCtxRetryW : Keyword001.KwCtx :=
  ⟨fun l => if l = "A" then Keyword001.KwOutcome.driverErr
            else Keyword001.KwOutcome.ok ["z@w.com"],
   fun _ => true⟩

/- keyword001.py environment: every location raises WebDriverException
   and driver re-creation fails. -/
def kwCtxNoReW : Keyword001.KwCtx :=
  ⟨fun _ => Keyword001.KwOutcome.driverErr, fun _ => false⟩

/- Three result links for the link-following witness: the second one
   fails while being visited. -/
def linkW1 : Loc.LinkCase := ⟨"u1", some ["c@d.co"]⟩

def linkW2 : Loc.LinkCase := ⟨"u2", none⟩

def linkW3 : Loc.LinkCase := ⟨"u3", some ["e@f.co"]⟩

def linksW : List Loc.LinkCase := [linkW1, linkW2, linkW3]

/- A JSON parser stub that fails on every input, for exercising the
   malformed-content branch of load_checkpoint. -/
def parseNoneW : String → Option Checkpoint := fun _ => none

/-! ## Helper lemmas: checkpoint mapping -/

theorem cpFind_cpSet_self (cp : Checkpoint) (k : String) (v : List String) :
    cpFind (cpSet cp k v) k = some v := by
  induction cp with
  | nil => simp [cpSet, cpFind]
  | cons p rest ih =>
      obtain ⟨a, b⟩ := p
      by_cases h : a = k
      · subst h; simp [cpSet, cpFind]
      · simp [cpSet, cpFind, h, ih]

theorem cpFind_cpSet_ne (cp : Checkpoint) (k k' : String) (v : List String)
    (h : k' ≠ k) : cpFind (cpSet cp k v) k' = cpFind cp k' := by
  induction cp with
  | nil => simp [cpSet, cpFind, Ne.symm h]
  | cons p rest ih =>
      obtain ⟨a, b⟩ := p
      by_cases hak : a = k
      · subst hak; simp [cpSet, cpFind, Ne.symm h]
      · by_cases hak' : a = k'
        · subst hak'; simp [cpSet, cpFind, h]
        · simp [cpSet, cpFind, hak, hak', ih]

theorem cpMem_cpSet (cp : Checkpoint) (k k' : String) (v : List String)
    (h : cpMem cp k' = true) : cpMem (cpSet cp k v) k' = true := by
  by_cases hk : k' = k
  · subst hk; simp [cpMem, cpFind_cpSet_self]
  · simpa [cpMem, cpFind_cpSet_ne cp k k' v hk] using h

theorem cpMem_false_find (cp : Checkpoint) (k : String)
    (h : cpMem cp k = false) : cpFind cp k = none := by
  unfold cpMem at h
  cases hf : cpFind cp k with
  | none => rfl
  | some v => rw [hf] at h; simp at h

/-! ## Helper lemmas: write-through checker -/

theorem wtAux_append :
    ∀ (a : List Ev) (s : Option (String × List String)) (b : List Ev),
      wtAux s a = true → wtAux none b = true → wtAux s (a ++ b) = true := by
  intro a
  induction a with
  | nil =>
      intro s b ha hb
      cases s with
      | none => simpa using hb
      | some p => simp [wtAux] at ha
  | cons e rest ih =>
      intro s b ha hb
      cases s with
      | none =>
          cases e <;> simp only [wtAux, List.cons_append] at ha ⊢ <;>
            exact ih _ _ ha hb
      | some p =>
          obtain ⟨k, v⟩ := p
          cases e with
          | save cp =>
              simp only [wtAux, List.cons_append] at ha ⊢
              split at ha
              case isTrue hfind => simpa [hfind] using ih _ _ ha hb
              case isFalse hfind => exact absurd ha (by simp)
          | fetch key => exact absurd ha (by simp [wtAux])
          | backoff => exact absurd ha (by simp [wtAux])
          | record key es => exact absurd ha (by simp [wtAux])
          | exportCsv => exact absurd ha (by simp [wtAux])
          | reinit rok => exact absurd ha (by simp [wtAux])
          | linkOpen url => exact absurd ha (by simp [wtAux])
          | linkDone url => exact absurd ha (by simp [wtAux])
          | linkFail url => exact absurd ha (by simp [wtAux])
          | switchBack => exact absurd ha (by simp [wtAux])

/-! ## Helper lemmas: list-as-set operations -/

theorem mem_dedupAux :
    ∀ (l seen : List String) (x : String), x ∈ dedupAux seen l → x ∈ l := by
  intro l
  induction l with
  | nil => intro seen x hx; simp [dedupAux] at hx
  | cons y ys ih =>
      intro seen x hx
      by_cases hy : y ∈ seen
      · simp only [dedupAux, if_pos hy] at hx
        exact List.mem_cons_of_mem y (ih seen x hx)
      · simp only [dedupAux, if_neg hy] at hx
        rcases List.mem_cons.mp hx with h | h
        · exact h ▸ List.mem_cons_self y ys
        · exact List.mem_cons_of_mem y (ih _ x h)

theorem unionPy_nil (b : List String) : unionPy [] b = b := by
  simp [unionPy]

theorem mem_unionPy_left (a b : List String) (x : String) (hx : x ∈ a) :
    x ∈ unionPy a b :=
  List.mem_append_left _ hx

theorem mem_unionPy_right (a b : List String) (x : String) (hx : x ∈ b) :
    x ∈ unionPy a b := by
  by_cases h : x ∈ a
  · exact List.mem_append_left _ h
  · exact List.mem_append_right _ (List.mem_filter.mpr ⟨hx, by simpa using h⟩)

/-! ## Helper lemmas: fetch counting -/

theorem countFetch_nil (K : String) : countFetch [] K = 0 := rfl

theorem countFetch_cons (e : Ev) (evs : List Ev) (K : String) :
    countFetch (e :: evs) K =
      countFetch evs K + (if e = Ev.fetch K then 1 else 0) := by
  simp [countFetch, List.count_cons]

theorem countFetch_append (a b : List Ev) (K : String) :
    countFetch (a ++ b) K = countFetch a K + countFetch b K :=
  List.count_append _ _ _

/-! ## Helper lemmas: aslocation.py attempt loop -/

theorem attemptLoop_countFetch_ne (ctx : AsLocation.AsCtx) (loc K : String)
    (h : K ≠ loc) :
    ∀ (fuel attempt : Nat) (cp : Checkpoint) (rn : Nat),
      countFetch (AsLocation.attemptLoop ctx loc fuel attempt cp rn).evs K = 0 := by
  have hfe : loc ≠ K := Ne.symm h
  intro fuel
  induction fuel with
  | zero => intro attempt cp rn; simp [AsLocation.attemptLoop, countFetch_nil]
  | succ n ih =>
      intro attempt cp rn
      cases hf : ctx.fetch loc attempt with
      | ok html =>
          simp [AsLocation.attemptLoop, hf, countFetch_cons, countFetch_nil, hfe]
      | timeout =>
          simp only [AsLocation.attemptLoop, hf]
          split
          · simp [countFetch_cons, countFetch_append, countFetch_nil, hfe, ih]
          · simp [countFetch_cons, countFetch_append, countFetch_nil, hfe, ih]
      | driverErr =>
          simp only [AsLocation.attemptLoop, hf]
          split
          · simp [countFetch_cons, countFetch_append, countFetch_nil, hfe, ih]
          · simp [countFetch_cons, countFetch_nil, hfe]

theorem attemptLoop_cpFind_ne (ctx : AsLocation.AsCtx) (loc K : String)
    (h : K ≠ loc) :
    ∀ (fuel attempt : Nat) (cp : Checkpoint) (rn : Nat),
      cpFind (AsLocation.attemptLoop ctx loc fuel attempt cp rn).cp K =
        cpFind cp K := by
  intro fuel
  induction fuel with
  | zero => intro attempt cp rn; simp [AsLocation.attemptLoop]
  | succ n ih =>
      intro attempt cp rn
      cases hf : ctx.fetch loc attempt with
      | ok html =>
          simp [AsLocation.attemptLoop, hf, cpFind_cpSet_ne _ _ _ _ h]
      | timeout =>
          simp only [AsLocation.attemptLoop, hf]
          split
          · simp [ih, cpFind_cpSet_ne _ _ _ _ h]
          · simp [ih]
      | driverErr =>
          simp only [AsLocation.attemptLoop, hf]
          split
          · simp [ih]
          · simp

theorem attemptLoop_cpMem (ctx : AsLocation.AsCtx) (loc K : String) :
    ∀ (fuel attempt : Nat) (cp : Checkpoint) (rn : Nat),
      cpMem cp K = true →
      cpMem (AsLocation.attemptLoop ctx loc fuel attempt cp rn).cp K = true := by
  intro fuel
  induction fuel with
  | zero => intro attempt cp rn hK; simpa [AsLocation.attemptLoop] using hK
  | succ n ih =>
      intro attempt cp rn hK
      cases hf : ctx.fetch loc attempt with
      | ok html =>
          simp only [AsLocation.attemptLoop, hf]
          exact cpMem_cpSet _ _ _ _ hK
      | timeout =>
          simp only [AsLocation.attemptLoop, hf]
          split
          · exact ih _ _ _ (cpMem_cpSet _ _ _ _ hK)
          · exact ih _ _ _ hK
      | driverErr =>
          simp only [AsLocation.attemptLoop, hf]
          split
          · exact ih _ _ _ hK
          · simpa using hK

theorem attemptLoop_wt (ctx : AsLocation.AsCtx) (loc : String) :
    ∀ (fuel attempt : Nat) (cp : Checkpoint) (rn : Nat),
      wtAux none (AsLocation.attemptLoop ctx loc fuel attempt cp rn).evs = true := by
  intro fuel
  induction fuel with
  | zero => intro attempt cp rn; simp [AsLocation.attemptLoop, wtAux]
  | succ n ih =>
      intro attempt cp rn
      cases hf : ctx.fetch loc attempt with
      | ok html =>
          simp [AsLocation.attemptLoop, hf, wtAux, cpFind_cpSet_self]
      | timeout =>
          simp only [AsLocation.attemptLoop, hf]
          split
          · simp [wtAux, cpFind_cpSet_self, ih _ _ _]
          · simp [wtAux, ih _ _ _]
      | driverErr =>
          simp only [AsLocation.attemptLoop, hf]
          split
          · simp [wtAux, ih _ _ _]
          · simp [wtAux]

/-! ## Helper lemmas: loc.py link loop and scrape -/

theorem linkLoop_countFetch (K : String) :
    ∀ (ls : List Loc.LinkCase) (acc : List String),
      countFetch (Loc.linkLoop acc ls).1 K = 0 := by
  intro ls
  induction ls with
  | nil => intro acc; simp [Loc.linkLoop, countFetch_nil]
  | cons l ls ih =>
      intro acc
      cases hr : l.result with
      | some es =>
          simp [Loc.linkLoop, hr, countFetch_cons, ih]
      | none =>
          simp [Loc.linkLoop, hr, countFetch_cons, ih]

theorem linkLoop_wt :
    ∀ (ls : List Loc.LinkCase) (acc : List String),
      wtAux none (Loc.linkLoop acc ls).1 = true := by
  intro ls
  induction ls with
  | nil => intro acc; simp [Loc.linkLoop, wtAux]
  | cons l ls ih =>
      intro acc
      cases hr : l.result with
      | some es => simp [Loc.linkLoop, hr, wtAux, ih _]
      | none => simp [Loc.linkLoop, hr, wtAux, ih _]

theorem linkLoop_acc_sub :
    ∀ (ls : List Loc.LinkCase) (acc : List String) (x : String),
      x ∈ acc → x ∈ (Loc.linkLoop acc ls).2 := by
  intro ls
  induction ls with
  | nil => intro acc x hx; simpa [Loc.linkLoop] using hx
  | cons l ls ih =>
      intro acc x hx
      cases hr : l.result with
      | some es =>
          simp only [Loc.linkLoop, hr]
          exact ih _ x (mem_unionPy_left _ _ _ hx)
      | none =>
          simp only [Loc.linkLoop, hr]
          exact ih _ x hx

theorem linkLoop_opens :
    ∀ (ls : List Loc.LinkCase) (acc : List String) (l : Loc.LinkCase),
      l ∈ ls → Ev.linkOpen l.url ∈ (Loc.linkLoop acc ls).1 := by
  intro ls
  induction ls with
  | nil => intro acc l hl; simp at hl
  | cons l0 ls ih =>
      intro acc l hl
      rcases List.mem_cons.mp hl with h | h
      · subst h
        cases hr : l.result <;> simp [Loc.linkLoop, hr]
      · cases hr : l0.result with
        | some es =>
            simp only [Loc.linkLoop, hr]
            exact List.mem_cons_of_mem _ (List.mem_cons_of_mem _
              (List.mem_cons_of_mem _ (ih _ l h)))
        | none =>
            simp only [Loc.linkLoop, hr]
            exact List.mem_cons_of_mem _ (List.mem_cons_of_mem _
              (List.mem_cons_of_mem _ (ih _ l h)))

theorem scrape_countFetch_ne (o : Loc.SearchOutcome) (key K : String)
    (h : K ≠ key) : countFetch (Loc.scrape_emails o key).1 K = 0 := by
  have hfe : key ≠ K := Ne.symm h
  cases o with
  | timeout => simp [Loc.scrape_emails, countFetch_cons, countFetch_nil, hfe]
  | err => simp [Loc.scrape_emails, countFetch_cons, countFetch_nil, hfe]
  | ok pes links =>
      simp [Loc.scrape_emails, countFetch_cons, hfe, linkLoop_countFetch]

theorem scrape_wt (o : Loc.SearchOutcome) (key : String) :
    wtAux none (Loc.scrape_emails o key).1 = true := by
  cases o with
  | timeout => simp [Loc.scrape_emails, wtAux]
  | err => simp [Loc.scrape_emails, wtAux]
  | ok pes links => simp [Loc.scrape_emails, wtAux, linkLoop_wt]

/-! ## Helper lemmas: the capture-group value of every findall match -/

theorem findallPairs_snd_empty :
    ∀ (fuel : Nat) (exts : List String) (s : List Char)
      (p : String × String), p ∈ Regex.findallPairs exts fuel s → p.2 = "" := by
  intro fuel
  induction fuel with
  | zero => intro exts s p hp; simp [Regex.findallPairs] at hp
  | succ n ih =>
      intro exts s p hp
      cases s with
      | nil => simp [Regex.findallPairs] at hp
      | cons c cs =>
          cases hm : Regex.matchAttempt exts (c :: cs) with
          | none =>
              rw [Regex.findallPairs, hm] at hp
              exact ih exts cs p hp
          | some rest =>
              rw [Regex.findallPairs, hm] at hp
              rcases List.mem_cons.mp hp with hhd | htl
              · rw [hhd]
              · exact ih exts rest p htl

theorem findallPy_all_empty (exts : List String) (fuel : Nat) (s : List Char)
    (x : String) (hx : x ∈ Regex.findallPy exts fuel s) : x = "" := by
  rcases List.mem_map.mp hx with ⟨p, hp, hpx⟩
  rw [← hpx]
  exact findallPairs_snd_empty fuel exts s p hp

/-! ## Helper lemmas: loaders -/

theorem mem_unique_locations :
    ∀ (l seen : List String) (x : String),
      x ∈ AsLocation.unique_locations seen l → x ∈ l ∧ x ≠ "" ∧ x ∉ seen := by
  intro l
  induction l with
  | nil => intro seen x hx; simp [AsLocation.unique_locations] at hx
  | cons y ys ih =>
      intro seen x hx
      by_cases hy : y ≠ "" ∧ y ∉ seen
      · rw [AsLocation.unique_locations, if_pos hy] at hx
        rcases List.mem_cons.mp hx with h | h
        · subst h
          exact ⟨List.mem_cons_self _ _, hy.1, hy.2⟩
        · rcases ih _ x h with ⟨h1, h2, h3⟩
          exact ⟨List.mem_cons_of_mem _ h1, h2,
            fun hs => h3 (List.mem_cons_of_mem _ hs)⟩
      · rw [AsLocation.unique_locations, if_neg hy] at hx
        rcases ih _ x hx with ⟨h1, h2, h3⟩
        exact ⟨List.mem_cons_of_mem _ h1, h2, h3⟩

theorem unique_locations_nodup :
    ∀ (l seen : List String), (AsLocation.unique_locations seen l).Nodup := by
  intro l
  induction l with
  | nil => intro seen; simp [AsLocation.unique_locations]
  | cons y ys ih =>
      intro seen
      by_cases hy : y ≠ "" ∧ y ∉ seen
      · rw [AsLocation.unique_locations, if_pos hy]
        refine List.nodup_cons.mpr ⟨?_, ih _⟩
        intro hmem
        exact (mem_unique_locations ys (y :: seen) y hmem).2.2
          (List.mem_cons_self _ _)
      · rw [AsLocation.unique_locations, if_neg hy]
        exact ih _

theorem unique_locations_sublist :
    ∀ (l seen : List String), (AsLocation.unique_locations seen l).Sublist l := by
  intro l
  induction l with
  | nil => intro seen; simp [AsLocation.unique_locations]
  | cons y ys ih =>
      intro seen
      by_cases hy : y ≠ "" ∧ y ∉ seen
      · rw [AsLocation.unique_locations, if_pos hy]
        exact List.Sublist.cons₂ y (ih _)
      · rw [AsLocation.unique_locations, if_neg hy]
        exact List.Sublist.cons y (ih _)

theorem mem_dict_fromkeys :
    ∀ (l seen : List String) (x : String),
      x ∈ Loc.dict_fromkeys seen l ↔ (x ∈ l ∧ x ∉ seen) := by
  intro l
  induction l with
  | nil => intro seen x; simp [Loc.dict_fromkeys]
  | cons y ys ih =>
      intro seen x
      by_cases hy : y ∈ seen
      · rw [Loc.dict_fromkeys, if_pos hy]
        rw [ih]
        constructor
        · rintro ⟨h1, h2⟩
          exact ⟨List.mem_cons_of_mem _ h1, h2⟩
        · rintro ⟨h1, h2⟩
          rcases List.mem_cons.mp h1 with h | h
          · exact absurd (h ▸ hy) h2
          · exact ⟨h, h2⟩
      · rw [Loc.dict_fromkeys, if_neg hy]
        constructor
        · intro hx
          rcases List.mem_cons.mp hx with h | h
          · subst h
            exact ⟨List.mem_cons_self _ _, hy⟩
          · rcases (ih _ x).mp h with ⟨h1, h2⟩
            exact ⟨List.mem_cons_of_mem _ h1,
              fun hs => h2 (List.mem_cons_of_mem _ hs)⟩
        · rintro ⟨h1, h2⟩
          by_cases hxy : x = y
          · subst hxy
            exact List.mem_cons_self _ _
          · rcases List.mem_cons.mp h1 with h | h
            · exact absurd h hxy
            · exact List.mem_cons_of_mem _ ((ih _ x).mpr
                ⟨h, by simp [hxy, h2]⟩)

theorem dict_fromkeys_nodup :
    ∀ (l seen : List String), (Loc.dict_fromkeys seen l).Nodup := by
  intro l
  induction l with
  | nil => intro seen; simp [Loc.dict_fromkeys]
  | cons y ys ih =>
      intro seen
      by_cases hy : y ∈ seen
      · rw [Loc.dict_fromkeys, if_pos hy]
        exact ih _
      · rw [Loc.dict_fromkeys, if_neg hy]
        refine List.nodup_cons.mpr ⟨?_, ih _⟩
        intro hmem
        exact ((mem_dict_fromkeys ys (y :: seen) y).mp hmem).2
          (List.mem_cons_self _ _)

theorem dict_fromkeys_sublist :
    ∀ (l seen : List String), (Loc.dict_fromkeys seen l).Sublist l := by
  intro l
  induction l with
  | nil => intro seen; simp [Loc.dict_fromkeys]
  | cons y ys ih =>
      intro seen
      by_cases hy : y ∈ seen
      · rw [Loc.dict_fromkeys, if_pos hy]
        exact List.Sublist.cons y (ih _)
      · rw [Loc.dict_fromkeys, if_neg hy]
        exact List.Sublist.cons₂ y (ih _)

/-! ## Helper lemma: a failing link is contained -/

theorem linkLoop_fail_split (bad : Loc.LinkCase) (L2 : List Loc.LinkCase)
    (hbad : bad.result = none) :
    ∀ (L1 : List Loc.LinkCase) (acc : List String),
      (∀ l ∈ L2,
        Ev.linkOpen l.url ∈ (Loc.linkLoop acc (L1 ++ bad :: L2)).1) ∧
      (∃ pre post, (Loc.linkLoop acc (L1 ++ bad :: L2)).1 =
        pre ++ Ev.linkFail bad.url :: Ev.switchBack :: post) ∧
      (∀ x ∈ acc, x ∈ (Loc.linkLoop acc (L1 ++ bad :: L2)).2) ∧
      (∀ l ∈ L1, ∀ es, l.result = some es →
        ∀ x ∈ es, x ∈ (Loc.linkLoop acc (L1 ++ bad :: L2)).2) := by
  intro L1
  induction L1 with
  | nil =>
      intro acc
      refine ⟨?_, ?_, ?_, ?_⟩
      · intro l hl
        simp only [List.nil_append, Loc.linkLoop, hbad]
        exact List.mem_cons_of_mem _ (List.mem_cons_of_mem _
          (List.mem_cons_of_mem _ (linkLoop_opens L2 acc l hl)))
      · refine ⟨[Ev.linkOpen bad.url], (Loc.linkLoop acc L2).1, ?_⟩
        simp [Loc.linkLoop, hbad]
      · intro x hx
        simp only [List.nil_append, Loc.linkLoop, hbad]
        exact linkLoop_acc_sub L2 acc x hx
      · intro l hl
        simp at hl
  | cons l1 L1 ih =>
      intro acc
      cases hr : l1.result with
      | some es =>
          have ihx := ih (unionPy acc es)
          refine ⟨?_, ?_, ?_, ?_⟩
          · intro l hl
            simp only [List.cons_append, Loc.linkLoop, hr]
            exact List.mem_cons_of_mem _ (List.mem_cons_of_mem _
              (List.mem_cons_of_mem _ (ihx.1 l hl)))
          · rcases ihx.2.1 with ⟨pre, post, hsplit⟩
            refine ⟨Ev.linkOpen l1.url :: Ev.linkDone l1.url ::
              Ev.switchBack :: pre, post, ?_⟩
            simp [Loc.linkLoop, hr, hsplit]
          · intro x hx
            simp only [List.cons_append, Loc.linkLoop, hr]
            exact ihx.2.2.1 x (mem_unionPy_left _ _ _ hx)
          · intro l hl es' hles x hx
            rcases List.mem_cons.mp hl with h | h
            · subst h
              rw [hr] at hles
              injection hles with hes
              subst hes
              simp only [List.cons_append, Loc.linkLoop, hr]
              exact ihx.2.2.1 x (mem_unionPy_right _ _ _ hx)
            · simp only [List.cons_append, Loc.linkLoop, hr]
              exact ihx.2.2.2 l h es' hles x hx
      | none =>
          have ihx := ih acc
          refine ⟨?_, ?_, ?_, ?_⟩
          · intro l hl
            simp only [List.cons_append, Loc.linkLoop, hr]
            exact List.mem_cons_of_mem _ (List.mem_cons_of_mem _
              (List.mem_cons_of_mem _ (ihx.1 l hl)))
          · rcases ihx.2.1 with ⟨pre, post, hsplit⟩
            refine ⟨Ev.linkOpen l1.url :: Ev.linkFail l1.url ::
              Ev.switchBack :: pre, post, ?_⟩
            simp [Loc.linkLoop, hr, hsplit]
          · intro x hx
            simp only [List.cons_append, Loc.linkLoop, hr]
            exact ihx.2.2.1 x hx
          · intro l hl es' hles x hx
            rcases List.mem_cons.mp hl with h | h
            · subst h
              rw [hr] at hles
              exact absurd hles (by simp)
            · simp only [List.cons_append, Loc.linkLoop, hr]
              exact ihx.2.2.2 l h es' hles x hx

/-! ## Helper lemmas: whole-run properties -/

theorem as_run_skip (ctx : AsLocation.AsCtx) :
    ∀ (locs : List String) (cp : Checkpoint) (rn : Nat) (K : String),
      cpMem cp K = true →
      countFetch (AsLocation.scrape_google_emails ctx locs cp rn).evs K = 0 ∧
      cpFind (AsLocation.scrape_google_emails ctx locs cp rn).cp K =
        cpFind cp K := by
  intro locs
  induction locs with
  | nil =>
      intro cp rn K hK
      simp [AsLocation.scrape_google_emails, countFetch_nil]
  | cons loc rest ih =>
      intro cp rn K hK
      by_cases hmem : cpMem cp loc = true
      · simp only [AsLocation.scrape_google_emails, hmem, if_true]
        exact ih cp rn K hK
      · have hKloc : K ≠ loc := by
          intro e
          subst e
          rw [hK] at hmem
          exact hmem rfl
        simp only [AsLocation.scrape_google_emails, hmem, if_false,
          Bool.false_eq_true]
        by_cases ht :
            (AsLocation.attemptLoop ctx loc AsLocation.MAX_RETRIES 0 cp rn).term
              = true
        · simp only [ht, if_true]
          exact ⟨attemptLoop_countFetch_ne ctx loc K hKloc _ _ _ _,
            attemptLoop_cpFind_ne ctx loc K hKloc _ _ _ _⟩
        · simp only [ht, if_false, Bool.false_eq_true]
          have hmem' := attemptLoop_cpMem ctx loc K
            AsLocation.MAX_RETRIES 0 cp rn hK
          rcases ih _ _ K hmem' with ⟨ihc, ihf⟩
          constructor
          · rw [countFetch_append, ihc,
              attemptLoop_countFetch_ne ctx loc K hKloc _ _ _ _]
          · rw [ihf, attemptLoop_cpFind_ne ctx loc K hKloc _ _ _ _]

theorem loc_run_skip (ctx : Loc.LocCtx) :
    ∀ (keys : List String) (cp : Checkpoint) (K : String),
      cpMem cp K = true →
      countFetch (Loc.main_loop ctx keys cp).2 K = 0 ∧
      cpFind (Loc.main_loop ctx keys cp).1 K = cpFind cp K := by
  intro keys
  induction keys with
  | nil =>
      intro cp K hK
      simp [Loc.main_loop, countFetch_nil]
  | cons key rest ih =>
      intro cp K hK
      by_cases hmem : cpMem cp key = true
      · simp only [Loc.main_loop, hmem, if_true]
        exact ih cp K hK
      · have hKkey : K ≠ key := by
          intro e
          subst e
          rw [hK] at hmem
          exact hmem rfl
        simp only [Loc.main_loop, hmem, if_false, Bool.false_eq_true]
        have hmem' := cpMem_cpSet cp key K
          (sortStrings (dedupFirst (Loc.scrape_emails (ctx.scrape key) key).2)) hK
        rcases ih (cpSet cp key
          (sortStrings (dedupFirst (Loc.scrape_emails (ctx.scrape key) key).2)))
          K hmem' with ⟨ihc, ihf⟩
        constructor
        · simp only [countFetch_append, countFetch_cons, countFetch_nil]
          rw [scrape_countFetch_ne _ _ _ hKkey, ihc]
          simp [hKkey]
        · rw [ihf, cpFind_cpSet_ne _ _ _ _ hKkey]

theorem as_run_wt (ctx : AsLocation.AsCtx) :
    ∀ (locs : List String) (cp : Checkpoint) (rn : Nat),
      writeThrough (AsLocation.scrape_google_emails ctx locs cp rn).evs = true := by
  intro locs
  induction locs with
  | nil => intro cp rn; simp [AsLocation.scrape_google_emails, writeThrough, wtAux]
  | cons loc rest ih =>
      intro cp rn
      by_cases hmem : cpMem cp loc = true
      · simp only [AsLocation.scrape_google_emails, hmem, if_true]
        exact ih cp rn
      · simp only [AsLocation.scrape_google_emails, hmem, if_false,
          Bool.false_eq_true]
        by_cases ht :
            (AsLocation.attemptLoop ctx loc AsLocation.MAX_RETRIES 0 cp rn).term
              = true
        · simp only [ht, if_true]
          exact attemptLoop_wt ctx loc _ _ _ _
        · simp only [ht, if_false, Bool.false_eq_true]
          exact wtAux_append _ _ _ (attemptLoop_wt ctx loc _ _ _ _) (ih _ _)

theorem loc_run_wt (ctx : Loc.LocCtx) :
    ∀ (keys : List String) (cp : Checkpoint),
      writeThrough (Loc.main_loop ctx keys cp).2 = true := by
  intro keys
  induction keys with
  | nil => intro cp; simp [Loc.main_loop, writeThrough, wtAux]
  | cons key rest ih =>
      intro cp
      by_cases hmem : cpMem cp key = true
      · simp only [Loc.main_loop, hmem, if_true]
        exact ih cp
      · simp only [Loc.main_loop, hmem, if_false, Bool.false_eq_true]
        rw [List.append_assoc]
        refine wtAux_append _ _ _ (scrape_wt _ _) ?_
        simp only [List.cons_append, List.nil_append, wtAux, cpFind_cpSet_self,
          if_true, eq_self_iff_true]
        exact ih _

/-! ## Claims -/

/-- C1: the spec scenario says that for the page text
"contact us at jane@firm.com or see logo@cdn.com/logo.png" the
extraction returns exactly the set containing jane@firm.com, with the
image-URL match excluded by the lookahead guard and no empty strings in
the result.  The code disagrees: both extraction sites call re.findall
on a pattern whose only capture group sits inside the negative
lookahead, so findall returns the group text — the empty string — for
every match.  loc.py's extract_emails therefore returns the empty set
for EVERY input text (its length filter discards the empty strings),
and aslocation.py stores exactly [""] for the scenario page.  Moreover
the full matches of the pattern on the scenario are jane@firm.com AND
logo@cdn.com: the guard does not exclude the image-URL address either,
because the text following cdn.com is "/logo.png", not ".png". -/
theorem claim_C1_findall_group_bug :
    (∀ t : String, Loc.extract_emails t = []) ∧
    AsLocation.page_emails scenarioText = [""] ∧
    Regex.findallPy imageExtsLoc scenarioText.data.length scenarioText.data =
      ["", ""] ∧
    Regex.findallMatches imageExtsLoc scenarioText.data.length
      scenarioText.data = ["jane@firm.com", "logo@cdn.com"] := by
  refine ⟨?_, by decide, by decide, by decide⟩
  intro t
  simp only [Loc.extract_emails]
  refine List.filter_eq_nil_iff.mpr ?_
  intro a ha
  have ha' : a = "" :=
    findallPy_all_empty _ _ _ a (mem_dedupAux _ [] a ha)
  subst ha'
  simp [Loc.validEmail]

/-- C2: a work item whose key is already present in the checkpoint
(with any value) is never fetched, and its checkpoint entry is left
unchanged, in both the single-location orchestrator (aslocation.py)
and the link-following orchestrator (loc.py). -/
theorem claim_C2_resumability_skip :
    (∀ (ctx : AsLocation.AsCtx) (locs : List String) (cp : Checkpoint)
        (rn : Nat) (K : String),
      cpMem cp K = true →
      countFetch (AsLocation.scrape_google_emails ctx locs cp rn).evs K = 0 ∧
      cpFind (AsLocation.scrape_google_emails ctx locs cp rn).cp K =
        cpFind cp K) ∧
    (∀ (ctx : Loc.LocCtx) (keys : List String) (cp : Checkpoint) (K : String),
      cpMem cp K = true →
      countFetch (Loc.main_loop ctx keys cp).2 K = 0 ∧
      cpFind (Loc.main_loop ctx keys cp).1 K = cpFind cp K) :=
  ⟨fun ctx locs cp rn K hK => as_run_skip ctx locs cp rn K hK,
   fun ctx keys cp K hK => loc_run_skip ctx keys cp K hK⟩

/-- C2 witness: with a checkpoint already holding "Austin", neither
orchestrator fetches "Austin" and its entry survives unchanged. -/
theorem claim_C2_resumability_skip_witness :
    cpMem cpAustinW "Austin" = true ∧
    countFetch (AsLocation.scrape_google_emails asCtxOkW ["Austin", "Dallas"]
      cpAustinW 0).evs "Austin" = 0 ∧
    cpFind (AsLocation.scrape_google_emails asCtxOkW ["Austin", "Dallas"]
      cpAustinW 0).cp "Austin" = cpFind cpAustinW "Austin" ∧
    countFetch (Loc.main_loop locCtxOkW ["Austin"] cpAustinW).2 "Austin" = 0 ∧
    cpFind (Loc.main_loop locCtxOkW ["Austin"] cpAustinW).1 "Austin" =
      cpFind cpAustinW "Austin" :=
  ⟨by decide,
   (claim_C2_resumability_skip.1 asCtxOkW ["Austin", "Dallas"] cpAustinW 0
     "Austin" (by decide)).1,
   (claim_C2_resumability_skip.1 asCtxOkW ["Austin", "Dallas"] cpAustinW 0
     "Austin" (by decide)).2,
   (claim_C2_resumability_skip.2 locCtxOkW ["Austin"] cpAustinW "Austin"
     (by decide)).1,
   (claim_C2_resumability_skip.2 locCtxOkW ["Austin"] cpAustinW "Austin"
     (by decide)).2⟩

/-- C3 counterexample: the claim states that a work item whose fetch
raises a timeout on every attempt is fetched exactly 3 times before
being recorded empty.  In loc.py the TimeoutException raised by the
page-readiness wait is caught INSIDE scrape_emails, which returns an
empty set, so the orchestrator's retry loop breaks on its first
iteration: the key "K" is fetched exactly once — not 3 times — and
recorded with an empty list. -/
theorem claim_C3_cex :
    countFetch (Loc.main_loop locCtxTimeoutW ["K"] []).2 "K" = 1 ∧
    (1 : Nat) ≠ 3 ∧
    cpFind (Loc.main_loop locCtxTimeoutW ["K"] []).1 "K" = some [] := by
  refine ⟨by decide, by decide, by decide⟩

/-- C3 amended: in the single-location variant (aslocation.py) a work
item whose fetch times out on every attempt is fetched exactly 3 times,
the 2nd and 3rd attempts each preceded by a randomized backoff; after
the 3rd timeout the key is recorded with an empty list, the checkpoint
is saved and exported, and the run continues (no termination, no 4th
attempt).  In the link-following variant (loc.py) the timeout is
swallowed inside scrape_emails, so the orchestrator makes exactly one
fetch attempt and records the empty list for the key. -/
theorem claim_C3_retry_amended :
    (∀ (ctx : AsLocation.AsCtx) (loc : String) (cp : Checkpoint) (rn : Nat),
      (∀ i, ctx.fetch loc i = AsLocation.Outcome.timeout) →
      cpMem cp loc = false →
      AsLocation.scrape_google_emails ctx [loc] cp rn =
        ⟨cpSet cp loc [],
         [Ev.fetch loc, Ev.backoff, Ev.fetch loc, Ev.backoff, Ev.fetch loc,
          Ev.record loc [], Ev.save (cpSet cp loc []), Ev.exportCsv,
          Ev.backoff],
         false⟩) ∧
    (∀ (ctx : Loc.LocCtx) (key : String) (cp : Checkpoint),
      ctx.scrape key = Loc.SearchOutcome.timeout →
      cpMem cp key = false →
      Loc.main_loop ctx [key] cp =
        (cpSet cp key [],
         [Ev.fetch key, Ev.record key [], Ev.save (cpSet cp key []),
          Ev.exportCsv])) := by
  constructor
  · intro ctx loc cp rn hT hmem
    have h0 := hT 0
    have h1 := hT 1
    have h2 := hT 2
    simp [AsLocation.scrape_google_emails, hmem, AsLocation.attemptLoop,
      AsLocation.MAX_RETRIES, h0, h1, h2]
  · intro ctx key cp hs hmem
    simp [Loc.main_loop, hmem, Loc.scrape_emails, hs, sortStrings, dedupFirst,
      dedupAux]

/-- C3 amended witness: both halves evaluated in an environment where
every fetch times out, starting from an empty checkpoint. -/
theorem claim_C3_retry_amended_witness :
    (∀ i, asCtxTimeoutW.fetch "K" i = AsLocation.Outcome.timeout) ∧
    cpMem ([] : Checkpoint) "K" = false ∧
    locCtxTimeoutW.scrape "K" = Loc.SearchOutcome.timeout ∧
    AsLocation.scrape_google_emails asCtxTimeoutW ["K"] [] 0 =
      ⟨cpSet [] "K" [],
       [Ev.fetch "K", Ev.backoff, Ev.fetch "K", Ev.backoff, Ev.fetch "K",
        Ev.record "K" [], Ev.save (cpSet [] "K" []), Ev.exportCsv,
        Ev.backoff],
       false⟩ ∧
    Loc.main_loop locCtxTimeoutW ["K"] [] =
      (cpSet [] "K" [],
       [Ev.fetch "K", Ev.record "K" [], Ev.save (cpSet [] "K" []),
        Ev.exportCsv]) :=
  ⟨fun _ => rfl, by decide, rfl,
   claim_C3_retry_amended.1 asCtxTimeoutW "K" [] 0 (fun _ => rfl) (by decide),
   claim_C3_retry_amended.2 locCtxTimeoutW "K" [] rfl (by decide)⟩

/-- C4: in both orchestrators every record of a work item's result is
immediately followed by a synchronous save of a checkpoint containing
exactly that result, before any later event — in particular before the
next work item's fetch.  writeThrough checks this adjacency over the
whole trace. -/
theorem claim_C4_write_through :
    (∀ (ctx : AsLocation.AsCtx) (locs : List String) (cp : Checkpoint)
        (rn : Nat),
      writeThrough (AsLocation.scrape_google_emails ctx locs cp rn).evs =
        true) ∧
    (∀ (ctx : Loc.LocCtx) (keys : List String) (cp : Checkpoint),
      writeThrough (Loc.main_loop ctx keys cp).2 = true) :=
  ⟨fun ctx locs cp rn => as_run_wt ctx locs cp rn,
   fun ctx keys cp => loc_run_wt ctx keys cp⟩

/-- C5: load_checkpoint (identical in all three scripts) never fails
and never returns a partial mapping: a missing file yields the empty
mapping with no log line; an existing file whose content strips to the
empty string yields the empty mapping with an informational log line;
an existing file whose content does not parse yields the empty mapping
with an error log line. -/
theorem claim_C5_load_checkpoint :
    (∀ parse : String → Option Checkpoint,
      load_checkpoint parse none = ([], [])) ∧
    (∀ (parse : String → Option Checkpoint) (raw : String),
      pyStrip raw = "" →
      load_checkpoint parse (some raw) = ([], [LogMsg.info])) ∧
    (∀ (parse : String → Option Checkpoint) (raw : String),
      pyStrip raw ≠ "" → parse (pyStrip raw) = none →
      load_checkpoint parse (some raw) = ([], [LogMsg.error])) := by
  refine ⟨fun parse => rfl, fun parse raw h => ?_, fun parse raw h hp => ?_⟩
  · simp [load_checkpoint, h]
  · simp [load_checkpoint, h, hp]

/-- C5 witness: the three branches exercised on a missing file, a
whitespace-only file, and a file whose content fails to parse. -/
theorem claim_C5_load_checkpoint_witness :
    load_checkpoint parseNoneW none = ([], []) ∧
    pyStrip "  " = "" ∧
    load_checkpoint parseNoneW (some "  ") = ([], [LogMsg.info]) ∧
    pyStrip "nonsense" ≠ "" ∧
    parseNoneW (pyStrip "nonsense") = none ∧
    load_checkpoint parseNoneW (some "nonsense") = ([], [LogMsg.error]) :=
  ⟨claim_C5_load_checkpoint.1 parseNoneW,
   by decide,
   claim_C5_load_checkpoint.2.1 parseNoneW "  " (by decide),
   by decide,
   rfl,
   claim_C5_load_checkpoint.2.2 parseNoneW "nonsense" (by decide) rfl⟩

/-- C6 counterexample: the claim states that save_checkpoint writes to
a temporary location and renames it into place so that an interrupted
save leaves the previous checkpoint intact.  The code opens the
checkpoint file itself with mode "w": after the very first step (the
open) the file on disk holds the empty string — the previous content
"old" is already gone before any new content is durable — and no
rename step exists in the operation sequence. -/
theorem claim_C6_cex :
    diskAfter "new" (some "old") 1 = some "" ∧
    ("" : String) ≠ "old" ∧
    FsStep.renameTemp ∉ save_checkpoint_steps := by
  refine ⟨rfl, by decide, by decide⟩

/-- C6 amended: save_checkpoint opens the checkpoint file itself in
truncating write mode and writes the JSON directly into it; there is no
temporary file and no rename.  A completed save leaves the new content
on disk, but a save interrupted right after the open leaves an empty
file, so an interruption can destroy the previous checkpoint, not
merely lose the latest increment.  (Write errors are caught and logged,
not raised.) -/
theorem claim_C6_save_in_place :
    (∀ (data : String) (d : Option String), diskAfter data d 0 = d) ∧
    (∀ (data : String) (d : Option String), diskAfter data d 1 = some "") ∧
    (∀ (data : String) (d : Option String), diskAfter data d 3 = some data) ∧
    FsStep.renameTemp ∉ save_checkpoint_steps ∧
    FsStep.writeTemp ∉ save_checkpoint_steps :=
  ⟨fun _ _ => rfl, fun _ _ => rfl, fun _ _ => rfl, by decide, by decide⟩

/-- C7: the spec says that after a driver-level error the session is
recreated and the same work item is retried once, recreation failure
being the only terminating condition.  keyword001.py recreates the
session and even logs "Retrying {location}", but the continue statement
it then executes belongs to the location loop: with locations ["A","B"]
where fetching "A" raises a WebDriverException and recreation succeeds,
"A" is fetched exactly once, never retried, and left unrecorded, while
the run moves on to "B".  (When recreation fails the run does save the
checkpoint and terminate, as the claim states.) -/
theorem claim_C7_keyword_skip_bug :
    Keyword001.scrape_google_emails kwCtxRetryW ["A", "B"] [] 0 =
      ⟨[("B", ["z@w.com"])],
       [Ev.fetch "A", Ev.reinit true, Ev.fetch "B",
        Ev.record "B" ["z@w.com"], Ev.save [("B", ["z@w.com"])]],
       false⟩ ∧
    countFetch (Keyword001.scrape_google_emails kwCtxRetryW ["A", "B"] []
      0).evs "A" = 1 ∧
    cpFind (Keyword001.scrape_google_emails kwCtxRetryW ["A", "B"] [] 0).cp
      "A" = none ∧
    Keyword001.scrape_google_emails kwCtxNoReW ["A", "B"] [] 0 =
      ⟨[], [Ev.fetch "A", Ev.reinit false, Ev.save []], true⟩ := by
  refine ⟨by decide, by decide, by decide, by decide⟩

/-- C8: in loc.py's link-following loop, a failure while visiting any
one of the (at most 5) outbound links never aborts the work item: the
failing link's trace shows the failure immediately followed by the
switch back to the primary window, every remaining link is still
opened, and both the search-page e-mails and the e-mails of every
successfully visited link are kept in the result. -/
theorem claim_C8_link_failure_contained (pes : List String)
    (links : List Loc.LinkCase) (key : String)
    (L1 L2 : List Loc.LinkCase) (bad : Loc.LinkCase)
    (htake : links.take Loc.MAX_LINKS_PER_PAGE = L1 ++ bad :: L2)
    (hbad : bad.result = none) :
    (∀ l ∈ L2, Ev.linkOpen l.url ∈
      (Loc.scrape_emails (Loc.SearchOutcome.ok pes links) key).1) ∧
    (∃ pre post, (Loc.scrape_emails (Loc.SearchOutcome.ok pes links) key).1 =
      pre ++ Ev.linkFail bad.url :: Ev.switchBack :: post) ∧
    (∀ x ∈ pes, x ∈
      (Loc.scrape_emails (Loc.SearchOutcome.ok pes links) key).2) ∧
    (∀ l ∈ L1, ∀ es, l.result = some es → ∀ x ∈ es, x ∈
      (Loc.scrape_emails (Loc.SearchOutcome.ok pes links) key).2) := by
  have hmain := linkLoop_fail_split bad L2 hbad L1 (unionPy [] pes)
  refine ⟨?_, ?_, ?_, ?_⟩
  · intro l hl
    simp only [Loc.scrape_emails, htake]
    exact List.mem_cons_of_mem _ (hmain.1 l hl)
  · rcases hmain.2.1 with ⟨pre, post, hsplit⟩
    refine ⟨Ev.fetch key :: pre, post, ?_⟩
    simp only [Loc.scrape_emails, htake, hsplit, List.cons_append]
  · intro x hx
    simp only [Loc.scrape_emails, htake]
    exact hmain.2.2.1 x (mem_unionPy_right _ _ _ hx)
  · intro l hl es hles x hx
    simp only [Loc.scrape_emails, htake]
    exact hmain.2.2.2 l hl es hles x hx

/-- C8 witness: three links of which the second fails; the third is
still opened, the failure is followed by the switch back, and the
search-page e-mail and the first link's e-mail survive in the
result. -/
theorem claim_C8_link_failure_contained_witness :
    linksW.take Loc.MAX_LINKS_PER_PAGE = [linkW1] ++ linkW2 :: [linkW3] ∧
    linkW2.result = none ∧
    Ev.linkOpen linkW3.url ∈
      (Loc.scrape_emails (Loc.SearchOutcome.ok ["a@b.co"] linksW) "K").1 ∧
    (∃ pre post,
      (Loc.scrape_emails (Loc.SearchOutcome.ok ["a@b.co"] linksW) "K").1 =
        pre ++ Ev.linkFail linkW2.url :: Ev.switchBack :: post) ∧
    "a@b.co" ∈
      (Loc.scrape_emails (Loc.SearchOutcome.ok ["a@b.co"] linksW) "K").2 ∧
    "c@d.co" ∈
      (Loc.scrape_emails (Loc.SearchOutcome.ok ["a@b.co"] linksW) "K").2 :=
  ⟨by decide, rfl,
   (claim_C8_link_failure_contained ["a@b.co"] linksW "K" [linkW1] [linkW3]
     linkW2 (by decide) rfl).1 linkW3 (by simp),
   (claim_C8_link_failure_contained ["a@b.co"] linksW "K" [linkW1] [linkW3]
     linkW2 (by decide) rfl).2.1,
   (claim_C8_link_failure_contained ["a@b.co"] linksW "K" [linkW1] [linkW3]
     linkW2 (by decide) rfl).2.2.1 "a@b.co" (by simp),
   (claim_C8_link_failure_contained ["a@b.co"] linksW "K" [linkW1] [linkW3]
     linkW2 (by decide) rfl).2.2.2 linkW1 (by simp) ["c@d.co"] rfl "c@d.co"
     (by simp)⟩

/-- C9 counterexample: the claim states that the work-item loader
returns the column's NON-EMPTY trimmed values.  loc.py deduplicates
with list(dict.fromkeys(...)) and never drops values that become empty
after stripping: a whitespace-only cell survives as the empty
string. -/
theorem claim_C9_cex :
    Loc.load_cities_column [" ", "Austin"] = ["", "Austin"] ∧
    ("" : String) ∈ Loc.load_cities_column [" ", "Austin"] := by
  refine ⟨by decide, by decide⟩

/-- C9 amended: both loaders trim, deduplicate keeping the first
occurrence, and preserve first-seen order (in particular
["Austin","Austin","Denver"] yields ["Austin","Denver"] in both); their
results are duplicate-free sublists of the trimmed input, so order is
preserved.  The aslocation.py loader additionally drops values that are
empty after trimming, but the loc.py loader keeps them, so the
"non-empty" part of the claim holds only for the aslocation
variant. -/
theorem claim_C9_loader_amended :
    AsLocation.load_locations_from_excel ["Austin", "Austin", "Denver"] =
      ["Austin", "Denver"] ∧
    Loc.load_cities_column ["Austin", "Austin", "Denver"] =
      ["Austin", "Denver"] ∧
    (∀ cells : List String,
      "" ∉ AsLocation.load_locations_from_excel cells) ∧
    (∀ cells : List String,
      (AsLocation.load_locations_from_excel cells).Nodup) ∧
    (∀ cells : List String,
      (AsLocation.load_locations_from_excel cells).Sublist
        (cells.map pyStrip)) ∧
    (∀ cells : List String, (Loc.load_cities_column cells).Nodup) ∧
    (∀ cells : List String,
      (Loc.load_cities_column cells).Sublist (cells.map pyStrip)) ∧
    (∀ (cells : List String) (x : String),
      x ∈ Loc.load_cities_column cells ↔ x ∈ cells.map pyStrip) := by
  refine ⟨by decide, by decide, ?_, ?_, ?_, ?_, ?_, ?_⟩
  · intro cells hmem
    exact (mem_unique_locations _ _ _ hmem).2.1 rfl
  · intro cells
    exact unique_locations_nodup _ _
  · intro cells
    exact unique_locations_sublist _ _
  · intro cells
    exact dict_fromkeys_nodup _ _
  · intro cells
    exact dict_fromkeys_sublist _ _
  · intro cells x
    rw [Loc.load_cities_column, mem_dict_fromkeys]
    simp

/-- C10: in aslocation.py, when all 3 attempts for a location fail with
a WebDriverException and every session recreation succeeds, the attempt
loop is exhausted with no checkpoint write: the trace is exactly three
fetch/recreate pairs, the run continues, and the final checkpoint still
lacks the key — so a resumed run fetches this location again, unlike
the timeout path which records an empty list. -/
theorem claim_C10_driver_exhaust (ctx : AsLocation.AsCtx) (loc : String)
    (cp : Checkpoint) (rn : Nat)
    (hD : ∀ i, ctx.fetch loc i = AsLocation.Outcome.driverErr)
    (hR : ∀ n, ctx.reinitOk n = true)
    (hmem : cpMem cp loc = false) :
    AsLocation.scrape_google_emails ctx [loc] cp rn =
      ⟨cp,
       [Ev.fetch loc, Ev.reinit true, Ev.fetch loc, Ev.reinit true,
        Ev.fetch loc, Ev.reinit true],
       false⟩ ∧
    cpFind cp loc = none := by
  constructor
  · have h0 := hD 0
    have h1 := hD 1
    have h2 := hD 2
    have r0 := hR rn
    have r1 := hR (rn + 1)
    have r2 := hR (rn + 2)
    simp [AsLocation.scrape_google_emails, hmem, AsLocation.attemptLoop,
      AsLocation.MAX_RETRIES, h0, h1, h2, r0, r1, r2]
  · exact cpMem_false_find cp loc hmem

/-- C10 witness: evaluated in an environment where every fetch raises a
WebDriverException and recreation always succeeds, on the empty
checkpoint. -/
theorem claim_C10_driver_exhaust_witness :
    (∀ i, asCtxDriverW.fetch "K" i = AsLocation.Outcome.driverErr) ∧
    (∀ n, asCtxDriverW.reinitOk n = true) ∧
    cpMem ([] : Checkpoint) "K" = false ∧
    (AsLocation.scrape_google_emails asCtxDriverW ["K"] [] 0 =
      ⟨[],
       [Ev.fetch "K", Ev.reinit true, Ev.fetch "K", Ev.reinit true,
        Ev.fetch "K", Ev.reinit true],
       false⟩ ∧
     cpFind ([] : Checkpoint) "K" = none) :=
  ⟨fun _ => rfl, fun _ => rfl, by decide,
   claim_C10_driver_exhaust asCtxDriverW "K" [] 0 (fun _ => rfl)
     (fun _ => rfl) (by decide)⟩
